import Mathlib

/-!
# Verification of docker-haproxy-statsd (templates/ha-stats.py)

A shallow embedding of the two core functions of `ha-stats.py`:

* `get_ha_stats` — issues an HTTP GET to the HAProxy stats endpoint, calls
  `raise_for_status()`, strips the leading comment marker with
  `content.lstrip('# ')`, and hands `data.splitlines()` to `csv.DictReader`;
* `push_to_statsd` — for each row builds
  `name = '.'.join([namespace, row['pxname'], row['svname']])` and, for each
  field of a fixed 13-element list, sends the UDP datagram
  `'%s.%s:%s|g' % (name, data, value)` with `value = row.get(data) or 0`,
  incrementing a counter per datagram.

The response body is modelled as a `List Char` (the raw text); rows are
modelled as association lists from column names to Python values
(`PyVal.str` for a CSV string, `PyVal.none` for Python `None`, the
`restval` padding that `csv.DictReader` inserts when a data line is shorter
than the header).  Datagrams are records of a payload string and a
destination.  Sending is fire-and-forget, so the observable behaviour of one
cycle is the list of datagrams produced, in order, together with the
returned counter or the raised exception.
-/

namespace HaStats

/-- A Python value stored in a `csv.DictReader` row: either a string taken
from the CSV line, or `None` (the default `restval`, used to pad a data line
that has fewer columns than the header). -/
inductive PyVal where
  | str (s : String)
  | none
deriving DecidableEq

/-- A `StatsRow`: the dict produced by `csv.DictReader` for one data line,
as an association list in header order.  Surplus values of a line longer
than the header go under the non-string key `None` (`restkey`) in Python
and are therefore unreachable by any string lookup; the embedding drops
them. -/
def StatsRow : Type := List (String × PyVal)

instance : DecidableEq StatsRow := by
  unfold StatsRow
  infer_instance

/-- Lookup in a `StatsRow` with Python `dict` semantics: `dict(zip(ks, vs))`
lets a later duplicate key overwrite an earlier one, so the lookup returns
the value of the LAST matching key. -/
def rowGet : StatsRow → String → Option PyVal
  | [], _ => Option.none
  | (k, v) :: rest, key =>
    match rowGet rest key with
    | Option.some w => Option.some w
    | Option.none => if k = key then Option.some v else Option.none

/-- The record builder `dict(zip(fieldnames, row))` followed by `csv.DictReader`'s padding:
header columns beyond the line's values are bound to `restval = None`;
surplus values (line longer than header) go under `restkey = None`, not
under any string key, and are dropped here. -/
def dictRow : List String → List String → StatsRow
  | [], _ => []
  | k :: ks, [] => (k, PyVal.none) :: dictRow ks []
  | k :: ks, v :: vs => (k, PyVal.str v) :: dictRow ks vs

/-- Split a character list at every occurrence of `c` (the separator is
consumed; `n` separators give `n+1` parts). -/
def splitOnChar (c : Char) : List Char → List (List Char)
  | [] => [[]]
  | x :: xs =>
    if x = c then [] :: splitOnChar c xs
    else
      match splitOnChar c xs with
      | [] => [[x]]
      | l :: ls => (x :: l) :: ls

/-- Join parts with a single separator character between them (inverse of
`splitOnChar` on separator-free parts). -/
def joinWith (c : Char) : List (List Char) → List Char
  | [] => []
  | [p] => p
  | p :: ps => p ++ c :: joinWith c ps

/-- Python's `str.splitlines()`, modelled for `'\n'` separators only: split
on newlines, and unlike a plain split do not produce a final empty line for
a body ending in a newline.  Python additionally splits at `'\r'` and
`'\r\n'`; the claims about parsing therefore hypothesise carriage-return
free input, where the two functions agree. -/
def splitlines (s : List Char) : List (List Char) :=
  let parts := splitOnChar '\n' s
  if parts.getLast? = Option.some [] then parts.dropLast else parts

/-- Python `content.lstrip('# ')`: remove the longest leading run of characters
drawn from the set `{'#', ' '}`. -/
def lstripMarker (body : List Char) : List Char :=
  body.dropWhile (fun c => c = '#' || c = ' ')

/-- One line under `csv.reader`: a blank line yields the empty record `[]`,
otherwise the line splits at every comma.  The Python csv module further
interprets `'"'` quoting and raises on NUL bytes; the claims about parsing
therefore hypothesise quote- and NUL-free fields (HAProxy CSV emits
neither), where this comma split agrees with `csv.reader`. -/
def csvParseLine (line : List Char) : List String :=
  if line = [] then [] else (splitOnChar ',' line).map (fun l => String.mk l)

/-- Model of `requests.Response.raise_for_status()`: raises `HTTPError` exactly for
client errors (4xx) and server errors (5xx); informational and redirect
statuses do not raise. -/
def raise_for_status (status : Nat) : Bool :=
  decide (400 ≤ status ∧ status < 600)

/-- The error raised out of `get_ha_stats`: the `requests.HTTPError` from
`raise_for_status` is the only exception this function can produce. -/
inductive FetchError where
  | httpError (status : Nat)
deriving DecidableEq

/-- The function `get_ha_stats` from ha-stats.py, parameterised by the HTTP response
(status code and raw body): call `raise_for_status()`, strip the leading
marker run with `lstrip('# ')`, split into lines, take the first line as
the `csv.DictReader` header and turn every non-blank later line into a
`StatsRow` (blank lines are skipped by `DictReader`). -/
def get_ha_stats (status : Nat) (body : List Char) :
    Except FetchError (List StatsRow) :=
  if raise_for_status status then Except.error (FetchError.httpError status)
  else
    let data := lstripMarker body
    match splitlines data with
    | [] => Except.ok []
    | headerLine :: rest =>
      let fieldnames := csvParseLine headerLine
      Except.ok ((rest.filter (fun l => l ≠ [])).map
        (fun l => dictRow fieldnames (csvParseLine l)))

/-- The fixed field-selection list of `push_to_statsd` (the "Default
config" line of the source), in source order. -/
def statFields : List String :=
  ["qcur", "qmax", "scur", "smax", "rate", "rate_max",
   "hrsp_1xx", "hrsp_2xx", "hrsp_3xx", "hrsp_4xx", "hrsp_5xx",
   "bin", "bout"]

/-- The expression `row.get(data) or 0`, already serialised by `'%s'`: an absent key and
the Python-falsy values `None` and `''` all become the literal `0`; any
other string passes through verbatim. -/
def pyFieldValue (row : StatsRow) (field : String) : String :=
  match rowGet row field with
  | Option.some (PyVal.str s) => if s = "" then "0" else s
  | _ => "0"

/-- The wire payload `'%s.%s:%s|g' % (name, field, value)`. -/
def payloadStr (name field value : String) : String :=
  name ++ "." ++ field ++ ":" ++ value ++ "|g"

/-- One UDP datagram as handed to `sendto`: payload plus destination. -/
structure Datagram where
  payload : String
  destHost : String
  destPort : Nat
deriving DecidableEq

/-- The exception that can escape `push_to_statsd`'s name construction:
`row['pxname']` / `row['svname']` raise `KeyError` for an absent key, and
`'.'.join` raises `TypeError` when handed a `None` component. -/
inductive EmitError where
  | keyError (k : String)
  | typeError
deriving DecidableEq

/-- Name construction `name = '.'.join([namespace, row['pxname'], row['svname']])`:
`row['pxname']` is evaluated first (raising `KeyError('pxname')` if the key
is absent), then `row['svname']`, then the join (raising `TypeError` if a
component is `None`). -/
def mkName (ns : String) (row : StatsRow) : Except EmitError String :=
  match rowGet row "pxname" with
  | Option.none => Except.error (EmitError.keyError "pxname")
  | Option.some pxv =>
    match rowGet row "svname" with
    | Option.none => Except.error (EmitError.keyError "svname")
    | Option.some svv =>
      match pxv, svv with
      | PyVal.str px, PyVal.str sv =>
        Except.ok (ns ++ "." ++ px ++ "." ++ sv)
      | _, _ => Except.error EmitError.typeError

/-- The inner `for data in [...]` loop of `push_to_statsd`: one datagram per
field, `stat_count += 1` after each send.  Returns the datagrams sent and
the updated counter. -/
def pushFields (name : String) (row : StatsRow) (host : String) (port : Nat) :
    List String → Nat → List Datagram × Nat
  | [], c => ([], c)
  | f :: fs, c =>
    let d : Datagram := ⟨payloadStr name f (pyFieldValue row f), host, port⟩
    let rest := pushFields name row host port fs (c + 1)
    (d :: rest.1, rest.2)

/-- The outer `for row in rows` loop of `push_to_statsd`, threading the
counter `stat_count` (initially 0 in the source; kept explicit so that its
non-influence on the payloads is provable).  A `KeyError`/`TypeError` while
building a row's name aborts the loop: the datagrams already sent stay
sent, nothing further is emitted, and the exception propagates instead of a
return value. -/
def pushRows (ns host : String) (port : Nat) :
    List StatsRow → Nat → List Datagram × Except EmitError Nat
  | [], c => ([], Except.ok c)
  | row :: rows, c =>
    match mkName ns row with
    | Except.error e => ([], Except.error e)
    | Except.ok name =>
      let sent := pushFields name row host port statFields c
      let rest := pushRows ns host port rows sent.2
      (sent.1 ++ rest.1, rest.2)

/-- The function `push_to_statsd(rows, host, port, namespace)`: run the loop from
`stat_count = 0`; the result is the datagram list (in send order) together
with the returned count or the escaped exception. -/
def push_to_statsd (rows : List StatsRow) (host : String) (port : Nat)
    (ns : String) : List Datagram × Except EmitError Nat :=
  pushRows ns host port rows 0

/-- The payload strings of a send trace, in order. -/
def payloads (ds : List Datagram) : List String :=
  ds.map Datagram.payload

/-- An error aborting one fetch-emit cycle. -/
inductive CycleError where
  | fetch (e : FetchError)
  | emit (e : EmitError)
deriving DecidableEq

/-- One cycle of the main loop with an explicit initial emitter counter
(the source always starts it at 0; generalising it makes the absence of
hidden cross-cycle state provable): fetch, then, if the fetch succeeded,
emit.  A fetch failure sends nothing. -/
def run_cycleFrom (status : Nat) (body : List Char) (ns host : String)
    (port : Nat) (c : Nat) : List Datagram × Except CycleError Nat :=
  match get_ha_stats status body with
  | Except.error e => ([], Except.error (CycleError.fetch e))
  | Except.ok rows =>
    ((pushRows ns host port rows c).1,
     match (pushRows ns host port rows c).2 with
     | Except.ok n => Except.ok n
     | Except.error e => Except.error (CycleError.emit e))

/-- One cycle as the source runs it (counter starts at 0). -/
def run_cycle (status : Nat) (body : List Char) (ns host : String)
    (port : Nat) : List Datagram × Except CycleError Nat :=
  run_cycleFrom status body ns host port 0

/-- A row carries string-valued `pxname` and `svname` entries (the
precondition under which name construction cannot raise). -/
def hasNameFields (row : StatsRow) : Bool :=
  match rowGet row "pxname", rowGet row "svname" with
  | Option.some (PyVal.str _), Option.some (PyVal.str _) => true
  | _, _ => false

/-- The metric-name prefix a row yields when name construction succeeds
(total version of `mkName`; the fallback branch is never reached for a row
satisfying `hasNameFields`). -/
def nameOf (ns : String) (row : StatsRow) : String :=
  match mkName ns row with
  | Except.ok n => n
  | Except.error _ => ns

/-- Modelled from the spec's ordering sentence ("one datagram per field per
row, emitted in row order then field-list order"): the declarative payload
sequence, rows traversed in input order, fields in the order of
`statFields`. -/
def orderedPayloads (ns : String) (rows : List StatsRow) : List String :=
  rows.flatMap (fun r =>
    statFields.map (fun f => payloadStr (nameOf ns r) f (pyFieldValue r f)))

/-- A well-formed HAProxy CSV response body built from a header and data
lines: the comment marker, the comma-joined header, then one comma-joined
line per data row, all newline-joined. -/
def mkBody (hs : List String) (rows : List (List String)) : List Char :=
  joinWith '\n'
    (('#' :: ' ' :: joinWith ',' (hs.map String.data)) ::
      rows.map (fun r => joinWith ',' (r.map String.data)))

/-- The concrete row of the spec's example: pxname `web`, svname
`FRONTEND`, field `bin` with value `4096`. -/
def exampleRow : StatsRow :=
  [("pxname", PyVal.str "web"), ("svname", PyVal.str "FRONTEND"),
   ("bin", PyVal.str "4096")]

/-- A concrete row with both name keys and no metric field at all. -/
def bareRow : StatsRow :=
  [("pxname", PyVal.str "a"), ("svname", PyVal.str "b")]

/-- A concrete row whose `pxname` key is absent. -/
def noPxRow : StatsRow :=
  [("svname", PyVal.str "x")]

/-! ## Splitting and joining -/

theorem strMk_data (s : String) : String.mk s.data = s := rfl

theorem joinWith_two (c : Char) (p q : List Char) (ps : List (List Char)) :
    joinWith c (p :: q :: ps) = p ++ c :: joinWith c (q :: ps) := rfl

theorem joinWith_cons_cons (c x : Char) (l : List Char)
    (ps : List (List Char)) :
    joinWith c ((x :: l) :: ps) = x :: joinWith c (l :: ps) := by
  cases ps with
  | nil => rfl
  | cons q qs => rfl

theorem joinWith_ne_nil_left (c : Char) (p : List Char)
    (ps : List (List Char)) (h : p ≠ []) : joinWith c (p :: ps) ≠ [] := by
  cases ps with
  | nil => simpa [joinWith] using h
  | cons q qs => simp [joinWith_two]

theorem joinWith_two_ne_nil (c : Char) (p q : List Char)
    (ps : List (List Char)) : joinWith c (p :: q :: ps) ≠ [] := by
  simp [joinWith_two]

theorem not_mem_joinWith {x c : Char} (hxc : x ≠ c) :
    ∀ (ps : List (List Char)), (∀ p ∈ ps, x ∉ p) → x ∉ joinWith c ps
  | [], _ => by simp [joinWith]
  | [p], h => by simpa [joinWith] using h p (by simp)
  | p :: q :: qs, h => by
    rw [joinWith_two]
    intro hmem
    rcases List.mem_append.mp hmem with h1 | h2
    · exact h p (by simp) h1
    · rcases List.mem_cons.mp h2 with h3 | h4
      · exact hxc h3
      · exact not_mem_joinWith hxc (q :: qs)
          (fun r hr => h r (List.mem_cons_of_mem _ hr)) h4

theorem splitOnChar_of_not_mem (c : Char) :
    ∀ (l : List Char), c ∉ l → splitOnChar c l = [l]
  | [], _ => rfl
  | x :: xs, h => by
    have hx : x ≠ c := fun he => h (he ▸ List.mem_cons_self _ _)
    have hxs : c ∉ xs := fun hm => h (List.mem_cons_of_mem _ hm)
    rw [splitOnChar, if_neg hx, splitOnChar_of_not_mem c xs hxs]

theorem splitOnChar_append_cons (c : Char) :
    ∀ (p rest : List Char), c ∉ p →
      splitOnChar c (p ++ c :: rest) = p :: splitOnChar c rest
  | [], rest, _ => by simp [splitOnChar]
  | x :: p, rest, h => by
    have hx : x ≠ c := fun he => h (he ▸ List.mem_cons_self _ _)
    have hp : c ∉ p := fun hm => h (List.mem_cons_of_mem _ hm)
    rw [List.cons_append, splitOnChar, if_neg hx,
      splitOnChar_append_cons c p rest hp]

theorem splitOnChar_joinWith (c : Char) :
    ∀ (ps : List (List Char)), (∀ p ∈ ps, c ∉ p) →
      ps ≠ [] → splitOnChar c (joinWith c ps) = ps
  | [], _, hne => absurd rfl hne
  | [p], h, _ => by
    simpa [joinWith] using splitOnChar_of_not_mem c p (h p (by simp))
  | p :: q :: qs, h, _ => by
    rw [joinWith_two, splitOnChar_append_cons c p _ (h p (by simp)),
      splitOnChar_joinWith c (q :: qs)
        (fun r hr => h r (List.mem_cons_of_mem _ hr)) (by simp)]

theorem splitlines_joinWith (ps : List (List Char)) (hne : ps ≠ [])
    (hn : ∀ p ∈ ps, '\n' ∉ p) (hp : ∀ p ∈ ps, p ≠ []) :
    splitlines (joinWith '\n' ps) = ps := by
  unfold splitlines
  rw [splitOnChar_joinWith '\n' ps hn hne]
  have hlast : ps.getLast? ≠ Option.some [] := by
    rw [List.getLast?_eq_getLast ps hne]
    intro hcontra
    exact hp (ps.getLast hne) (List.getLast_mem hne)
      (Option.some.inj hcontra)
  simp only [if_neg hlast]

/-! ## The marker strip -/

theorem lstripMarker_cons_of_ne (c : Char) (rest : List Char)
    (h1 : c ≠ '#') (h2 : c ≠ ' ') : lstripMarker (c :: rest) = c :: rest := by
  unfold lstripMarker
  rw [List.dropWhile_cons]
  simp [h1, h2]

theorem lstripMarker_hash (l : List Char) :
    lstripMarker ('#' :: l) = lstripMarker l := by
  unfold lstripMarker
  rw [List.dropWhile_cons]
  simp

theorem lstripMarker_space (l : List Char) :
    lstripMarker (' ' :: l) = lstripMarker l := by
  unfold lstripMarker
  rw [List.dropWhile_cons]
  simp

theorem lstripMarker_idem (l : List Char) :
    lstripMarker (lstripMarker l) = lstripMarker l := by
  induction l with
  | nil => rfl
  | cons x xs ih =>
    by_cases hx : (x = '#' || x = ' ') = true
    · have : lstripMarker (x :: xs) = lstripMarker xs := by
        unfold lstripMarker
        rw [List.dropWhile_cons, if_pos hx]
      rw [this]
      exact ih
    · have : lstripMarker (x :: xs) = x :: xs := by
        unfold lstripMarker
        rw [List.dropWhile_cons, if_neg hx]
      rw [this]
      unfold lstripMarker
      rw [List.dropWhile_cons, if_neg hx]

/-! ## Rows built by the header-driven reader -/

theorem rowGet_dictRow_of_not_mem (k : String) (ks vs : List String)
    (h : k ∉ ks) : rowGet (dictRow ks vs) k = Option.none := by
  induction ks generalizing vs with
  | nil => rfl
  | cons k₀ ks ih =>
    have hk₀ : k₀ ≠ k := by
      rintro rfl
      exact h (List.mem_cons_self _ _)
    have hks : k ∉ ks := fun hm => h (List.mem_cons_of_mem _ hm)
    cases vs with
    | nil =>
      show rowGet ((k₀, PyVal.none) :: dictRow ks []) k = Option.none
      rw [rowGet, ih [] hks]
      simp [hk₀]
    | cons v vs =>
      show rowGet ((k₀, PyVal.str v) :: dictRow ks vs) k = Option.none
      rw [rowGet, ih vs hks]
      simp [hk₀]

theorem rowGet_dictRow_getD (ks vs : List String) (j : Nat)
    (hnd : ks.Nodup) (hj : j < ks.length) :
    rowGet (dictRow ks vs) (ks.getD j "") =
      if j < vs.length then Option.some (PyVal.str (vs.getD j ""))
      else Option.some PyVal.none := by
  induction ks generalizing vs j with
  | nil => simp at hj
  | cons k₀ ks ih =>
    have hk₀ : k₀ ∉ ks := (List.nodup_cons.mp hnd).1
    have hnd' : ks.Nodup := (List.nodup_cons.mp hnd).2
    cases j with
    | zero =>
      cases vs with
      | nil =>
        show rowGet ((k₀, PyVal.none) :: dictRow ks []) k₀ = _
        rw [rowGet, rowGet_dictRow_of_not_mem k₀ ks [] hk₀]
        simp
      | cons v vs =>
        show rowGet ((k₀, PyVal.str v) :: dictRow ks vs) k₀ = _
        rw [rowGet, rowGet_dictRow_of_not_mem k₀ ks vs hk₀]
        simp
    | succ j =>
      have hj' : j < ks.length := by simpa using hj
      cases vs with
      | nil =>
        show rowGet ((k₀, PyVal.none) :: dictRow ks []) (ks.getD j "") = _
        rw [rowGet, ih [] j hnd' hj']
        simp
      | cons v vs =>
        show rowGet ((k₀, PyVal.str v) :: dictRow ks vs) (ks.getD j "") = _
        rw [rowGet, ih vs j hnd' hj']
        by_cases hlt : j < vs.length
        · simp [hlt]
        · simp [hlt]

theorem csvParseLine_joinWith (fields : List String) (hne : fields ≠ [])
    (hc : ∀ f ∈ fields, ',' ∉ f.data)
    (hjoin : joinWith ',' (fields.map String.data) ≠ []) :
    csvParseLine (joinWith ',' (fields.map String.data)) = fields := by
  unfold csvParseLine
  rw [if_neg hjoin,
    splitOnChar_joinWith ',' (fields.map String.data)
      (by
        intro p hp
        rcases List.mem_map.mp hp with ⟨f, hf, rfl⟩
        exact hc f hf)
      (by simpa using hne),
    List.map_map]
  have hcomp : ((fun l => String.mk l) ∘ String.data) = id :=
    funext fun s => strMk_data s
  rw [hcomp, List.map_id]

/-! ## The emitter loops -/

theorem mkName_of_hasNameFields (ns : String) (row : StatsRow)
    (h : hasNameFields row = true) :
    ∃ px sv, rowGet row "pxname" = Option.some (PyVal.str px) ∧
      rowGet row "svname" = Option.some (PyVal.str sv) ∧
      mkName ns row = Except.ok (ns ++ "." ++ px ++ "." ++ sv) := by
  unfold hasNameFields at h
  cases hpx : rowGet row "pxname" with
  | none => rw [hpx] at h; simp at h
  | some pxv =>
    cases hsv : rowGet row "svname" with
    | none => rw [hpx, hsv] at h; simp at h
    | some svv =>
      rw [hpx, hsv] at h
      cases pxv with
      | none => simp at h
      | str px =>
        cases svv with
        | none => simp at h
        | str sv =>
          refine ⟨px, sv, rfl, rfl, ?_⟩
          unfold mkName
          rw [hpx, hsv]

theorem mkName_error_of_missing (ns : String) (row : StatsRow)
    (h : rowGet row "pxname" = Option.none ∨
      rowGet row "svname" = Option.none) :
    mkName ns row =
      Except.error (EmitError.keyError
        (if rowGet row "pxname" = Option.none then "pxname" else "svname")) := by
  unfold mkName
  cases hpx : rowGet row "pxname" with
  | none => simp
  | some pxv =>
    have hsv : rowGet row "svname" = Option.none := by
      rcases h with h | h
      · rw [hpx] at h; exact absurd h (by simp)
      · exact h
    rw [hsv]
    simp [hpx]

theorem pushFields_fst (name : String) (row : StatsRow) (host : String)
    (port : Nat) (fs : List String) (c : Nat) :
    (pushFields name row host port fs c).1 =
      fs.map (fun f =>
        Datagram.mk (payloadStr name f (pyFieldValue row f)) host port) := by
  induction fs generalizing c with
  | nil => rfl
  | cons f fs ih =>
    show _ :: (pushFields name row host port fs (c + 1)).1 = _
    rw [ih (c + 1), List.map_cons]

theorem pushFields_snd (name : String) (row : StatsRow) (host : String)
    (port : Nat) (fs : List String) (c : Nat) :
    (pushFields name row host port fs c).2 = c + fs.length := by
  induction fs generalizing c with
  | nil => rfl
  | cons f fs ih =>
    show (pushFields name row host port fs (c + 1)).2 = _
    rw [ih (c + 1), List.length_cons]
    omega

theorem pushRows_fst_of_named (ns host : String) (port : Nat)
    (rows : List StatsRow) (c : Nat)
    (h : ∀ r ∈ rows, hasNameFields r = true) :
    (pushRows ns host port rows c).1 =
      rows.flatMap (fun r => statFields.map (fun f =>
        Datagram.mk (payloadStr (nameOf ns r) f (pyFieldValue r f))
          host port)) := by
  induction rows generalizing c with
  | nil => rfl
  | cons row rows ih =>
    obtain ⟨px, sv, hpx, hsv, hmk⟩ :=
      mkName_of_hasNameFields ns row (h row (List.mem_cons_self _ _))
    have hname : nameOf ns row = ns ++ "." ++ px ++ "." ++ sv := by
      unfold nameOf
      rw [hmk]
    show (pushRows ns host port (row :: rows) c).1 = _
    rw [pushRows, hmk]
    show (pushFields _ row host port statFields c).1 ++
      (pushRows ns host port rows _).1 = _
    rw [pushFields_fst, ih _ (fun r hr => h r (List.mem_cons_of_mem _ hr)),
      List.flatMap_cons, hname]

theorem pushRows_snd_of_named (ns host : String) (port : Nat)
    (rows : List StatsRow) (c : Nat)
    (h : ∀ r ∈ rows, hasNameFields r = true) :
    (pushRows ns host port rows c).2 =
      Except.ok (c + rows.length * statFields.length) := by
  induction rows generalizing c with
  | nil => show Except.ok c = _; rw [List.length_nil]; ring_nf
  | cons row rows ih =>
    obtain ⟨px, sv, hpx, hsv, hmk⟩ :=
      mkName_of_hasNameFields ns row (h row (List.mem_cons_self _ _))
    show (pushRows ns host port (row :: rows) c).2 = _
    rw [pushRows, hmk]
    show (pushRows ns host port rows
      (pushFields _ row host port statFields c).2).2 = _
    rw [pushFields_snd, ih _ (fun r hr => h r (List.mem_cons_of_mem _ hr)),
      List.length_cons]
    congr 1
    ring

theorem pushRows_fst_counter_free (ns host : String) (port : Nat)
    (rows : List StatsRow) (c c' : Nat) :
    (pushRows ns host port rows c).1 = (pushRows ns host port rows c').1 := by
  induction rows generalizing c c' with
  | nil => rfl
  | cons row rows ih =>
    show (pushRows ns host port (row :: rows) c).1 = _
    rw [pushRows, pushRows]
    cases hmk : mkName ns row with
    | error e => rfl
    | ok name =>
      show (pushFields name row host port statFields c).1 ++ _ =
        (pushFields name row host port statFields c').1 ++ _
      rw [pushFields_fst, pushFields_fst,
        ih (pushFields name row host port statFields c).2
          (pushFields name row host port statFields c').2]

theorem pushRows_snd_shift (ns host : String) (port : Nat)
    (rows : List StatsRow) (c : Nat) :
    (pushRows ns host port rows c).2 =
      (pushRows ns host port rows 0).2.map (fun n => c + n) := by
  induction rows generalizing c with
  | nil => show Except.ok c = Except.map _ (Except.ok 0); simp [Except.map]
  | cons row rows ih =>
    rw [pushRows, pushRows]
    cases hmk : mkName ns row with
    | error e => simp [Except.map]
    | ok name =>
      show (pushRows ns host port rows
          (pushFields name row host port statFields c).2).2 =
        Except.map _ (pushRows ns host port rows
          (pushFields name row host port statFields 0).2).2
      rw [pushFields_snd, pushFields_snd,
        ih (c + statFields.length), ih (0 + statFields.length)]
      cases (pushRows ns host port rows 0).2 with
      | error e => simp [Except.map]
      | ok n =>
        simp only [Except.map]
        congr 1
        omega

theorem pushRows_stops_at_error (ns host : String) (port : Nat)
    (pre post : List StatsRow) (bad : StatsRow) (c : Nat) (e : EmitError)
    (hpre : ∀ r ∈ pre, hasNameFields r = true)
    (hbad : mkName ns bad = Except.error e) :
    pushRows ns host port (pre ++ bad :: post) c =
      ((pushRows ns host port pre c).1, Except.error e) := by
  induction pre generalizing c with
  | nil =>
    show pushRows ns host port (bad :: post) c = (([], Except.ok c).1, _)
    rw [pushRows, hbad]
  | cons r pre ih =>
    obtain ⟨px, sv, hpx, hsv, hmk⟩ :=
      mkName_of_hasNameFields ns r (hpre r (List.mem_cons_self _ _))
    have hrec := ih (pushFields (ns ++ "." ++ px ++ "." ++ sv) r host port
      statFields c).2 (fun x hx => hpre x (List.mem_cons_of_mem _ hx))
    have hR : pushRows ns host port (r :: pre) c =
        ((pushFields (ns ++ "." ++ px ++ "." ++ sv) r host port
            statFields c).1 ++
          (pushRows ns host port pre
            (pushFields (ns ++ "." ++ px ++ "." ++ sv) r host port
              statFields c).2).1,
         (pushRows ns host port pre
           (pushFields (ns ++ "." ++ px ++ "." ++ sv) r host port
             statFields c).2).2) := by
      rw [pushRows, hmk]
    show pushRows ns host port (r :: (pre ++ bad :: post)) c = _
    rw [pushRows, hmk]
    show ((pushFields (ns ++ "." ++ px ++ "." ++ sv) r host port
          statFields c).1 ++
        (pushRows ns host port (pre ++ bad :: post)
          (pushFields (ns ++ "." ++ px ++ "." ++ sv) r host port
            statFields c).2).1,
      (pushRows ns host port (pre ++ bad :: post)
        (pushFields (ns ++ "." ++ px ++ "." ++ sv) r host port
          statFields c).2).2) = _
    rw [hrec, hR]

theorem pushRows_fst_length_of_named (ns host : String) (port : Nat)
    (rows : List StatsRow) (c : Nat)
    (h : ∀ r ∈ rows, hasNameFields r = true) :
    (pushRows ns host port rows c).1.length =
      rows.length * statFields.length := by
  induction rows generalizing c with
  | nil => rfl
  | cons row rows ih =>
    obtain ⟨px, sv, hpx, hsv, hmk⟩ :=
      mkName_of_hasNameFields ns row (h row (List.mem_cons_self _ _))
    show (pushRows ns host port (row :: rows) c).1.length = _
    rw [pushRows, hmk]
    show ((pushFields _ row host port statFields c).1 ++
      (pushRows ns host port rows _).1).length = _
    rw [List.length_append, pushFields_fst, List.length_map,
      ih _ (fun r hr => h r (List.mem_cons_of_mem _ hr)), List.length_cons]
    ring

theorem hasNameFields_of (row : StatsRow) (px sv : String)
    (hpx : rowGet row "pxname" = Option.some (PyVal.str px))
    (hsv : rowGet row "svname" = Option.some (PyVal.str sv)) :
    hasNameFields row = true := by
  unfold hasNameFields
  rw [hpx, hsv]

theorem nameOf_of (ns : String) (row : StatsRow) (px sv : String)
    (hpx : rowGet row "pxname" = Option.some (PyVal.str px))
    (hsv : rowGet row "svname" = Option.some (PyVal.str sv)) :
    nameOf ns row = ns ++ "." ++ px ++ "." ++ sv := by
  unfold nameOf mkName
  rw [hpx, hsv]

theorem payloads_push_singleton (ns host : String) (port : Nat)
    (row : StatsRow) (h : hasNameFields row = true) :
    payloads (push_to_statsd [row] host port ns).1 =
      statFields.map
        (fun f => payloadStr (nameOf ns row) f (pyFieldValue row f)) := by
  unfold push_to_statsd payloads
  rw [pushRows_fst_of_named ns host port [row] 0
    (by
      intro r hr
      rw [List.mem_singleton] at hr
      rw [hr]
      exact h)]
  simp [List.map_map, Function.comp]

theorem run_cycleFrom_err (status : Nat) (body : List Char) (ns host : String)
    (port : Nat) (c : Nat) (e : FetchError)
    (hg : get_ha_stats status body = Except.error e) :
    run_cycleFrom status body ns host port c =
      ([], Except.error (CycleError.fetch e)) := by
  unfold run_cycleFrom
  rw [hg]

theorem run_cycleFrom_ok (status : Nat) (body : List Char) (ns host : String)
    (port : Nat) (c : Nat) (rows : List StatsRow)
    (hg : get_ha_stats status body = Except.ok rows) :
    run_cycleFrom status body ns host port c =
      ((pushRows ns host port rows c).1,
       match (pushRows ns host port rows c).2 with
       | Except.ok n => Except.ok n
       | Except.error e => Except.error (CycleError.emit e)) := by
  unfold run_cycleFrom
  rw [hg]

theorem getD_map_lt {α β : Type} (f : α → β) (l : List α) (i : Nat) (dα : α)
    (dβ : β) (h : i < l.length) : (l.map f).getD i dβ = f (l.getD i dα) := by
  rw [List.getD_eq_getElem?_getD, List.getD_eq_getElem?_getD,
    List.getElem?_map, List.getElem?_eq_getElem h]
  rfl

theorem raise_for_status_true (status : Nat) (h4 : 400 ≤ status)
    (h6 : status < 600) : raise_for_status status = true := by
  unfold raise_for_status
  simp only [decide_eq_true_eq]
  omega

theorem raise_for_status_false (status : Nat)
    (h : status < 400 ∨ 600 ≤ status) : raise_for_status status = false := by
  unfold raise_for_status
  simp only [decide_eq_false_iff_not]
  omega

theorem get_ha_stats_error_of_4xx5xx (status : Nat) (body : List Char)
    (h4 : 400 ≤ status) (h6 : status < 600) :
    get_ha_stats status body =
      Except.error (FetchError.httpError status) := by
  unfold get_ha_stats
  rw [raise_for_status_true status h4 h6]
  rfl

theorem get_ha_stats_ok_of_status_lt (status : Nat) (body : List Char)
    (h : status < 400) :
    ∃ rows, get_ha_stats status body = Except.ok rows := by
  unfold get_ha_stats
  rw [raise_for_status_false status (Or.inl h)]
  cases hsp : splitlines (lstripMarker body) with
  | nil => exact ⟨[], by simp [hsp]⟩
  | cons headerLine rest =>
    exact ⟨(rest.filter (fun l => l ≠ [])).map
      (fun l => dictRow (csvParseLine headerLine) (csvParseLine l)),
      by simp [hsp]⟩

/-! ## The claims -/

/-- C1: every emitted datagram payload for a selected field whose value is
present and non-empty is exactly
`<namespace>.<pxname>.<svname>.<field>:<value>|g`, with the value string
embedded verbatim (no numeric validation or transformation); in particular
the spec's example row with namespace `haproxy`, pxname `web`, svname
`FRONTEND`, field `bin` and value `4096` yields exactly
`haproxy.web.FRONTEND.bin:4096|g`. -/
theorem claim1_wire_format (ns host : String) (port : Nat) (row : StatsRow)
    (px sv f v : String)
    (hpx : rowGet row "pxname" = Option.some (PyVal.str px))
    (hsv : rowGet row "svname" = Option.some (PyVal.str sv))
    (hf : rowGet row f = Option.some (PyVal.str v)) (hv : v ≠ "")
    (hmem : f ∈ statFields) :
    (ns ++ "." ++ px ++ "." ++ sv ++ "." ++ f ++ ":" ++ v ++ "|g") ∈
      payloads (push_to_statsd [row] host port ns).1 ∧
    "haproxy.web.FRONTEND.bin:4096|g" ∈
      payloads (push_to_statsd [exampleRow] host port "haproxy").1 := by
  constructor
  · rw [payloads_push_singleton ns host port row
      (hasNameFields_of row px sv hpx hsv), nameOf_of ns row px sv hpx hsv]
    have hval : pyFieldValue row f = v := by
      unfold pyFieldValue
      rw [hf]
      simp [hv]
    have h2 : payloadStr (ns ++ "." ++ px ++ "." ++ sv) f
        (pyFieldValue row f) ∈
        statFields.map (fun g => payloadStr (ns ++ "." ++ px ++ "." ++ sv) g
          (pyFieldValue row g)) :=
      List.mem_map_of_mem _ hmem
    rw [hval] at h2
    exact h2
  · rw [payloads_push_singleton "haproxy" host port exampleRow (by decide)]
    decide

/-- Witness for C1: the spec's example instantiated with a concrete
destination. -/
theorem claim1_wire_format_witness :
    ("haproxy" ++ "." ++ "web" ++ "." ++ "FRONTEND" ++ "." ++ "bin" ++ ":"
        ++ "4096" ++ "|g") ∈
      payloads (push_to_statsd [exampleRow] "127.0.0.1" 8125 "haproxy").1 ∧
    "haproxy.web.FRONTEND.bin:4096|g" ∈
      payloads (push_to_statsd [exampleRow] "127.0.0.1" 8125 "haproxy").1 :=
  claim1_wire_format "haproxy" "127.0.0.1" 8125 exampleRow
    "web" "FRONTEND" "bin" "4096" (by decide) (by decide) (by decide)
    (by decide) (by decide)

/-- C2: for rows that all carry `pxname` and `svname`, `push_to_statsd`
sends exactly `rows.length * 13` datagrams — 13 being the length of the
fixed field-selection list — regardless of which metric fields are missing,
and returns that count. -/
theorem claim2_count (rows : List StatsRow) (ns host : String) (port : Nat)
    (h : ∀ r ∈ rows, hasNameFields r = true) :
    (push_to_statsd rows host port ns).1.length = rows.length * 13 ∧
    (push_to_statsd rows host port ns).2 = Except.ok (rows.length * 13) ∧
    statFields.length = 13 := by
  have h13 : statFields.length = 13 := rfl
  refine ⟨?_, ?_, h13⟩
  · unfold push_to_statsd
    rw [pushRows_fst_length_of_named ns host port rows 0 h, h13]
  · unfold push_to_statsd
    rw [pushRows_snd_of_named ns host port rows 0 h, h13]
    congr 1
    omega

/-- Witness for C2: two rows, the second missing every metric field, still
produce 2 * 13 = 26 datagrams and return 26. -/
theorem claim2_count_witness :
    (push_to_statsd [exampleRow, bareRow] "127.0.0.1" 8125 "haproxy").1.length =
      2 * 13 ∧
    (push_to_statsd [exampleRow, bareRow] "127.0.0.1" 8125 "haproxy").2 =
      Except.ok (2 * 13) ∧
    statFields.length = 13 :=
  claim2_count [exampleRow, bareRow] "haproxy" "127.0.0.1" 8125 (by decide)

/-- C3: a selected field that is absent from the row (or carries the empty
string) is never skipped: its value serialises as the literal `0`, and the
emitted payload for that field is `<name>.<field>:0|g`. -/
theorem claim3_zero_fill (ns host : String) (port : Nat) (row : StatsRow)
    (px sv f : String)
    (hpx : rowGet row "pxname" = Option.some (PyVal.str px))
    (hsv : rowGet row "svname" = Option.some (PyVal.str sv))
    (hmem : f ∈ statFields)
    (habs : rowGet row f = Option.none ∨
      rowGet row f = Option.some (PyVal.str "")) :
    pyFieldValue row f = "0" ∧
    (ns ++ "." ++ px ++ "." ++ sv ++ "." ++ f ++ ":" ++ "0" ++ "|g") ∈
      payloads (push_to_statsd [row] host port ns).1 := by
  have hval : pyFieldValue row f = "0" := by
    unfold pyFieldValue
    rcases habs with habs | habs
    · rw [habs]
    · rw [habs]
      simp
  refine ⟨hval, ?_⟩
  rw [payloads_push_singleton ns host port row
    (hasNameFields_of row px sv hpx hsv), nameOf_of ns row px sv hpx hsv]
  have h2 : payloadStr (ns ++ "." ++ px ++ "." ++ sv) f
      (pyFieldValue row f) ∈
      statFields.map (fun g => payloadStr (ns ++ "." ++ px ++ "." ++ sv) g
        (pyFieldValue row g)) :=
    List.mem_map_of_mem _ hmem
  rw [hval] at h2
  exact h2

/-- Witness for C3: `exampleRow` has no `qcur` entry, and the `qcur`
payload it produces is `haproxy.web.FRONTEND.qcur:0|g`. -/
theorem claim3_zero_fill_witness :
    pyFieldValue exampleRow "qcur" = "0" ∧
    ("haproxy" ++ "." ++ "web" ++ "." ++ "FRONTEND" ++ "." ++ "qcur" ++ ":"
        ++ "0" ++ "|g") ∈
      payloads (push_to_statsd [exampleRow] "127.0.0.1" 8125 "haproxy").1 :=
  claim3_zero_fill "haproxy" "127.0.0.1" 8125 exampleRow "web" "FRONTEND"
    "qcur" (by decide) (by decide) (by decide) (Or.inl (by decide))

/-- C8: the emitted payload sequence is the rows traversed in input order
with, inside each row, the 13 selected fields traversed in the fixed list
order of `statFields` — one datagram per field per row, no reordering or
buffering. -/
theorem claim8_order (rows : List StatsRow) (ns host : String) (port : Nat)
    (h : ∀ r ∈ rows, hasNameFields r = true) :
    payloads (push_to_statsd rows host port ns).1 = orderedPayloads ns rows := by
  unfold push_to_statsd payloads orderedPayloads
  rw [pushRows_fst_of_named ns host port rows 0 h]
  rw [List.map_flatMap]
  rfl

/-- Witness for C8: two concrete rows. -/
theorem claim8_order_witness :
    payloads (push_to_statsd [exampleRow, bareRow] "127.0.0.1" 8125 "haproxy").1 =
      orderedPayloads "haproxy" [exampleRow, bareRow] :=
  claim8_order [exampleRow, bareRow] "haproxy" "127.0.0.1" 8125 (by decide)

/-- C9: a cycle is deterministic in its inputs — the datagram sequence does
not depend on the emitter's loop-counter state (the only mutable state in
`push_to_statsd`), and the count returned above that state is equally
independent, so two runs on an identical response body, namespace, host and
port produce byte-identical payload sequences and equal counts. -/
theorem claim9_determinism (status : Nat) (body : List Char)
    (ns host : String) (port : Nat) (c₁ c₂ : Nat) :
    (run_cycleFrom status body ns host port c₁).1 =
      (run_cycleFrom status body ns host port c₂).1 ∧
    (run_cycleFrom status body ns host port c₁).2.map (fun n => n - c₁) =
      (run_cycleFrom status body ns host port c₂).2.map (fun n => n - c₂) := by
  cases hg : get_ha_stats status body with
  | error e =>
    rw [run_cycleFrom_err status body ns host port c₁ e hg,
      run_cycleFrom_err status body ns host port c₂ e hg]
    exact ⟨rfl, rfl⟩
  | ok rows =>
    rw [run_cycleFrom_ok status body ns host port c₁ rows hg,
      run_cycleFrom_ok status body ns host port c₂ rows hg]
    constructor
    · exact pushRows_fst_counter_free ns host port rows c₁ c₂
    · cases h0 : (pushRows ns host port rows 0).2 with
      | error e =>
        have h₁ : (pushRows ns host port rows c₁).2 = Except.error e := by
          rw [pushRows_snd_shift ns host port rows c₁, h0]
          rfl
        have h₂ : (pushRows ns host port rows c₂).2 = Except.error e := by
          rw [pushRows_snd_shift ns host port rows c₂, h0]
          rfl
        rw [h₁, h₂]
        rfl
      | ok n =>
        have h₁ : (pushRows ns host port rows c₁).2 = Except.ok (c₁ + n) := by
          rw [pushRows_snd_shift ns host port rows c₁, h0]
          rfl
        have h₂ : (pushRows ns host port rows c₂).2 = Except.ok (c₂ + n) := by
          rw [pushRows_snd_shift ns host port rows c₂, h0]
          rfl
        rw [h₁, h₂]
        show Except.ok (c₁ + n - c₁) = Except.ok (c₂ + n - c₂)
        congr 1
        omega

/-- C10: the zero-fill applies only to metric fields, never to the name
components: a row whose `pxname` (or `svname`) key is absent makes the
emitter raise a `KeyError` naming that key while building the metric name;
the datagrams already sent for earlier rows stay sent, but nothing is
emitted for the offending row or any later row, and no `0` is substituted
for the missing name component. -/
theorem claim10_missing_name_key (ns host : String) (port : Nat)
    (pre post : List StatsRow) (bad : StatsRow) (c : Nat)
    (hpre : ∀ r ∈ pre, hasNameFields r = true)
    (hbad : rowGet bad "pxname" = Option.none ∨
      rowGet bad "svname" = Option.none) :
    pushRows ns host port (pre ++ bad :: post) c =
      ((pushRows ns host port pre c).1,
       Except.error (EmitError.keyError
         (if rowGet bad "pxname" = Option.none then "pxname"
          else "svname"))) :=
  pushRows_stops_at_error ns host port pre post bad c _ hpre
    (mkName_error_of_missing ns bad hbad)

/-- C4: for every well-formed CSV response — distinct header names, at
least two columns, every data line with exactly as many values as the
header, a header whose first character survives the marker strip, and
every header name and value free of the characters the csv pipeline treats
specially (comma, the line separators `'\n'` and `'\r'`, the quote `'"'`
and NUL, none of which HAProxy CSV emits) — `get_ha_stats` produces
exactly one `StatsRow` per data line after the header, in source order,
and each `StatsRow` maps each header column name to the value in the
corresponding position of its line. -/
theorem claim4_fetch_parses (hs : List String) (rows : List (List String))
    (hnd : hs.Nodup) (hlen2 : 2 ≤ hs.length)
    (hhead : ∃ c cs, (hs.headD "").data = c :: cs ∧ c ≠ '#' ∧ c ≠ ' ')
    (hchars : ∀ h ∈ hs, ',' ∉ h.data ∧ '\n' ∉ h.data ∧ '\r' ∉ h.data ∧
      '"' ∉ h.data ∧ '\x00' ∉ h.data)
    (hrows : ∀ r ∈ rows, r.length = hs.length ∧
      ∀ v ∈ r, ',' ∉ v.data ∧ '\n' ∉ v.data ∧ '\r' ∉ v.data ∧
        '"' ∉ v.data ∧ '\x00' ∉ v.data) :
    ∃ out, get_ha_stats 200 (mkBody hs rows) = Except.ok out ∧
      out.length = rows.length ∧
      ∀ i, i < rows.length → ∀ j, j < hs.length →
        rowGet (out.getD i []) (hs.getD j "") =
          Option.some (PyVal.str ((rows.getD i []).getD j "")) := by
  obtain ⟨c, cs, hcdata, hc1, hc2⟩ := hhead
  rcases hs with _ | ⟨h0, hs'⟩
  · simp at hlen2
  have hh0 : h0.data = c :: cs := by simpa using hcdata
  have hhdr : joinWith ',' ((h0 :: hs').map String.data) =
      c :: joinWith ',' (cs :: hs'.map String.data) := by
    rw [List.map_cons, hh0, joinWith_cons_cons]
  have hhdr_ne : joinWith ',' ((h0 :: hs').map String.data) ≠ [] := by
    rw [hhdr]
    simp
  have hhdr_nonl : '\n' ∉ joinWith ',' ((h0 :: hs').map String.data) := by
    apply not_mem_joinWith (by decide)
    intro p hp
    rcases List.mem_map.mp hp with ⟨f, hf, rfl⟩
    exact (hchars f hf).2.1
  have hdl_ne : ∀ l ∈ rows.map (fun r => joinWith ',' (r.map String.data)),
      l ≠ [] := by
    intro l hl
    rcases List.mem_map.mp hl with ⟨r, hr, rfl⟩
    have hlen := (hrows r hr).1
    rcases r with _ | ⟨v1, r1⟩
    · exfalso
      simp only [List.length_nil, List.length_cons] at hlen hlen2
      omega
    rcases r1 with _ | ⟨v2, r2⟩
    · exfalso
      simp only [List.length_cons, List.length_nil] at hlen hlen2
      omega
    · rw [List.map_cons, List.map_cons]
      exact joinWith_two_ne_nil _ _ _ _
  have hdl_nonl : ∀ l ∈ rows.map (fun r => joinWith ',' (r.map String.data)),
      '\n' ∉ l := by
    intro l hl
    rcases List.mem_map.mp hl with ⟨r, hr, rfl⟩
    apply not_mem_joinWith (by decide)
    intro p hp
    rcases List.mem_map.mp hp with ⟨v, hv, rfl⟩
    exact ((hrows r hr).2 v hv).2.1
  have hbody : mkBody (h0 :: hs') rows =
      '#' :: ' ' :: joinWith '\n'
        (joinWith ',' ((h0 :: hs').map String.data) ::
          rows.map (fun r => joinWith ',' (r.map String.data))) := by
    unfold mkBody
    rw [joinWith_cons_cons, joinWith_cons_cons]
  have hstrip : lstripMarker (mkBody (h0 :: hs') rows) =
      joinWith '\n' (joinWith ',' ((h0 :: hs').map String.data) ::
        rows.map (fun r => joinWith ',' (r.map String.data))) := by
    rw [hbody, lstripMarker_hash, lstripMarker_space, hhdr,
      joinWith_cons_cons, lstripMarker_cons_of_ne c _ hc1 hc2,
      ← joinWith_cons_cons, ← hhdr]
  have hsplit : splitlines (joinWith '\n'
      (joinWith ',' ((h0 :: hs').map String.data) ::
        rows.map (fun r => joinWith ',' (r.map String.data)))) =
      joinWith ',' ((h0 :: hs').map String.data) ::
        rows.map (fun r => joinWith ',' (r.map String.data)) := by
    apply splitlines_joinWith
    · simp
    · intro p hp
      rcases List.mem_cons.mp hp with rfl | hp'
      · exact hhdr_nonl
      · exact hdl_nonl p hp'
    · intro p hp
      rcases List.mem_cons.mp hp with rfl | hp'
      · exact hhdr_ne
      · exact hdl_ne p hp'
  have hparse_hdr :
      csvParseLine (joinWith ',' ((h0 :: hs').map String.data)) =
        h0 :: hs' :=
    csvParseLine_joinWith (h0 :: hs') (by simp)
      (fun f hf => (hchars f hf).1) hhdr_ne
  have hparse_row : ∀ r ∈ rows,
      csvParseLine (joinWith ',' (r.map String.data)) = r := by
    intro r hr
    apply csvParseLine_joinWith r
    · rintro rfl
      have hlen := (hrows [] hr).1
      simp only [List.length_nil, List.length_cons] at hlen hlen2
      omega
    · exact fun v hv => ((hrows r hr).2 v hv).1
    · exact hdl_ne _ (List.mem_map_of_mem _ hr)
  have hget : get_ha_stats 200 (mkBody (h0 :: hs') rows) =
      Except.ok
        (((rows.map (fun r => joinWith ',' (r.map String.data))).filter
            (fun l => l ≠ [])).map
          (fun l => dictRow
            (csvParseLine (joinWith ',' ((h0 :: hs').map String.data)))
            (csvParseLine l))) := by
    show (match splitlines (lstripMarker (mkBody (h0 :: hs') rows)) with
      | [] => (Except.ok [] : Except FetchError (List StatsRow))
      | headerLine :: rest =>
        Except.ok ((rest.filter (fun l => l ≠ [])).map
          (fun l => dictRow (csvParseLine headerLine) (csvParseLine l)))) = _
    rw [hstrip, hsplit]
  have hfilter : (rows.map (fun r => joinWith ',' (r.map String.data))).filter
      (fun l => l ≠ []) =
      rows.map (fun r => joinWith ',' (r.map String.data)) := by
    apply List.filter_eq_self.mpr
    intro a ha
    simpa using hdl_ne a ha
  have hmap : (rows.map (fun r => joinWith ',' (r.map String.data))).map
      (fun l => dictRow (h0 :: hs') (csvParseLine l)) =
      rows.map (fun r => dictRow (h0 :: hs') r) := by
    rw [List.map_map]
    apply List.map_congr_left
    intro r hr
    show dictRow (h0 :: hs')
      (csvParseLine (joinWith ',' (r.map String.data))) = _
    rw [hparse_row r hr]
  refine ⟨rows.map (fun r => dictRow (h0 :: hs') r), ?_, ?_, ?_⟩
  · rw [hget, hparse_hdr, hfilter, hmap]
  · rw [List.length_map]
  · intro i hi j hj
    rw [getD_map_lt _ rows i [] [] hi]
    have hmem : rows.getD i [] ∈ rows := by
      have h1 : rows.getD i [] = rows[i] := by
        rw [List.getD_eq_getElem?_getD, List.getElem?_eq_getElem hi]
        rfl
      rw [h1]
      exact List.getElem_mem hi
    have hlen := (hrows _ hmem).1
    rw [rowGet_dictRow_getD (h0 :: hs') (rows.getD i []) j hnd hj,
      if_pos (by rw [hlen]; exact hj)]

/-- Witness for C4: a three-column header with one data line parses to one
row with every column mapped. -/
theorem claim4_fetch_parses_witness :
    ∃ out, get_ha_stats 200 (mkBody ["pxname", "svname", "qcur"]
        [["web", "FRONTEND", "4"]]) = Except.ok out ∧
      out.length = [["web", "FRONTEND", "4"]].length ∧
      ∀ i, i < [["web", "FRONTEND", "4"]].length →
        ∀ j, j < ["pxname", "svname", "qcur"].length →
          rowGet (out.getD i []) (["pxname", "svname", "qcur"].getD j "") =
            Option.some (PyVal.str
              (([["web", "FRONTEND", "4"]].getD i []).getD j "")) :=
  claim4_fetch_parses ["pxname", "svname", "qcur"] [["web", "FRONTEND", "4"]]
    (by decide) (by decide)
    ⟨'p', String.data "xname", by decide, by decide, by decide⟩
    (by decide) (by decide)

/-- C5 (counterexample): the claim says the marker strip removes exactly a
leading `"# "` and is a no-op when that two-character marker is absent, but
on the body `#pxname,svname` — whose first two characters are not `"# "` —
the strip is not a no-op: `lstrip('# ')` removes any leading run of `'#'`
and `' '` characters. -/
theorem claim5_strip_counterexample :
    (String.data "#pxname,svname").take 2 ≠ String.data "# " ∧
    lstripMarker (String.data "#pxname,svname") ≠
      String.data "#pxname,svname" := by
  constructor
  · decide
  · decide

/-- C5 (amended): the marker-stripping step removes the longest leading run
of `'#'` and `' '` characters; this coincides with removing exactly the
`"# "` marker whenever the marker is followed by a character that is
neither `'#'` nor `' '`, it is a no-op whenever the body's first character
is neither `'#'` nor `' '`, and it is idempotent. -/
theorem claim5_strip_amended :
    (∀ (c : Char) (rest : List Char), c ≠ '#' → c ≠ ' ' →
      lstripMarker ('#' :: ' ' :: c :: rest) = c :: rest) ∧
    (∀ (c : Char) (rest : List Char), c ≠ '#' → c ≠ ' ' →
      lstripMarker (c :: rest) = c :: rest) ∧
    (∀ body : List Char,
      lstripMarker (lstripMarker body) = lstripMarker body) := by
  refine ⟨?_, ?_, lstripMarker_idem⟩
  · intro c rest h1 h2
    rw [lstripMarker_hash, lstripMarker_space,
      lstripMarker_cons_of_ne c rest h1 h2]
  · intro c rest h1 h2
    exact lstripMarker_cons_of_ne c rest h1 h2

/-- Witness for C5: the amended statement at concrete bodies — a marked
header loses exactly the marker, an unmarked one is untouched. -/
theorem claim5_strip_amended_witness :
    lstripMarker ('#' :: ' ' :: 'p' :: String.data "xname") =
      'p' :: String.data "xname" ∧
    lstripMarker ('p' :: String.data "xname,svname") =
      'p' :: String.data "xname,svname" :=
  ⟨claim5_strip_amended.1 'p' (String.data "xname") (by decide) (by decide),
   claim5_strip_amended.2.1 'p' (String.data "xname,svname")
     (by decide) (by decide)⟩

/-- C6 (counterexample): 304 is a non-2xx status, yet `get_ha_stats` does
not fail on it — `raise_for_status()` raises only for 4xx/5xx — so the body
is parsed and datagrams would be sent for the cycle. -/
theorem claim6_status_counterexample :
    (304 < 200 ∨ 300 ≤ 304) ∧
    get_ha_stats 304 (String.data "# pxname,svname\nweb,FRONTEND") =
      Except.ok [[("pxname", PyVal.str "web"),
        ("svname", PyVal.str "FRONTEND")]] := by
  exact ⟨Or.inr (by omega), rfl⟩

/-- C6 (amended): a 4xx or 5xx response status — not every non-2xx
status — makes `get_ha_stats` fail with the HTTP error, and then zero
datagrams are sent for that cycle; statuses below 400 (such as 304) never
raise. -/
theorem claim6_fetch_failure_amended (status : Nat) (body : List Char)
    (ns host : String) (port : Nat) (h4 : 400 ≤ status)
    (h6 : status < 600) :
    get_ha_stats status body =
      Except.error (FetchError.httpError status) ∧
    (run_cycle status body ns host port).1 = [] := by
  have hget := get_ha_stats_error_of_4xx5xx status body h4 h6
  refine ⟨hget, ?_⟩
  show (run_cycleFrom status body ns host port 0).1 = []
  rw [run_cycleFrom_err status body ns host port 0 _ hget]

/-- Witness for C6: a 404 response fails the fetch and the cycle sends
nothing. -/
theorem claim6_fetch_failure_amended_witness :
    get_ha_stats 404 (String.data "# pxname,svname\nweb,FRONTEND") =
      Except.error (FetchError.httpError 404) ∧
    (run_cycle 404 (String.data "# pxname,svname\nweb,FRONTEND")
      "haproxy" "127.0.0.1" 8125).1 = [] :=
  claim6_fetch_failure_amended 404
    (String.data "# pxname,svname\nweb,FRONTEND") "haproxy" "127.0.0.1"
    8125 (by omega) (by omega)

/-- C7 (counterexample): a data line with one value under a two-column
header is not a parse error — the fetch succeeds and produces a `StatsRow`
for that line, with the second column bound to Python `None` — contradicting
the claim that the cycle's fetch fails. -/
theorem claim7_mismatch_counterexample :
    (csvParseLine (String.data "1")).length ≠
      (csvParseLine (String.data "a,b")).length ∧
    get_ha_stats 200 (String.data "# a,b\n1") =
      Except.ok [[("a", PyVal.str "1"), ("b", PyVal.none)]] := by
  exact ⟨by decide, rfl⟩

/-- C7 (amended): a column-count mismatch is not an error anywhere in the
pipeline: `get_ha_stats` succeeds for every success status regardless of
the body, and a row shorter than the header binds every header column
beyond the line's values to Python `None` (which the emitter later
zero-fills). -/
theorem claim7_mismatch_amended (status : Nat) (body : List Char)
    (ks vs : List String) (j : Nat) (hstatus : status < 400)
    (hnd : ks.Nodup) (hj : j < ks.length) (hjv : vs.length ≤ j) :
    (∃ rows, get_ha_stats status body = Except.ok rows) ∧
    rowGet (dictRow ks vs) (ks.getD j "") = Option.some PyVal.none := by
  refine ⟨get_ha_stats_ok_of_status_lt status body hstatus, ?_⟩
  rw [rowGet_dictRow_getD ks vs j hnd hj]
  simp [Nat.not_lt.mpr hjv]

/-- Witness for C7: the mismatched body of the counterexample, with the
padded column named explicitly. -/
theorem claim7_mismatch_amended_witness :
    (∃ rows, get_ha_stats 200 (String.data "# a,b\n1") = Except.ok rows) ∧
    rowGet (dictRow ["a", "b"] ["1"]) (["a", "b"].getD 1 "") =
      Option.some PyVal.none :=
  claim7_mismatch_amended 200 (String.data "# a,b\n1") ["a", "b"] ["1"] 1
    (by omega) (by decide) (by decide) (by decide)

/-- Witness for C10: after one good row, a row missing `pxname` stops the
emitter with `KeyError("pxname")`; only the first row's datagrams exist. -/
theorem claim10_missing_name_key_witness :
    pushRows "haproxy" "127.0.0.1" 8125
        ([exampleRow] ++ noPxRow :: [bareRow]) 0 =
      ((pushRows "haproxy" "127.0.0.1" 8125 [exampleRow] 0).1,
       Except.error (EmitError.keyError
         (if rowGet noPxRow "pxname" = Option.none
          then "pxname" else "svname"))) :=
  claim10_missing_name_key "haproxy" "127.0.0.1" 8125 [exampleRow]
    [bareRow] noPxRow 0 (by decide) (Or.inl (by decide))

end HaStats
